import Mathlib

/-!
Verification development for a three-tier (bronze/silver/gold) sales data
pipeline: raw JSON ingestion with a line-based repair pass, type-enforcing
conformance with a denormalized fact view and referential-integrity
diagnostics, and dimensional modeling with a generated calendar dimension.

The definitions below are a shallow embedding of the pipeline sources
(`step01_bronze_load.py`, `silver_load_clean.py`, `step03_gold_load.py`).
Tables are lists of records; SQL NULL is `Option.none`; DATE values are day
counts from the proleptic Gregorian date 0001-01-01 (day 0); DOUBLE
measures are exact rationals (the properties under study concern null
propagation and multiplicative shape, not rounding). File contents are
lists of characters.
-/

namespace Sales

/-- SQL equality in a join predicate: `a = b` is satisfied only when both
operands are non-NULL and equal (NULL comparisons are UNKNOWN, never true). -/
def optEq {κ : Type} [DecidableEq κ] (a b : Option κ) : Bool :=
  match a, b with
  | some x, some y => decide (x = y)
  | _, _ => false

/-- SQL `LEFT JOIN`: every left row is kept; when no right row satisfies the
predicate the right side is NULL (`none`); when several match, the left row
is repeated once per match. -/
def leftJoin {α β γ : Type} (ls : List α) (rs : List β)
    (p : α → β → Bool) (mk : α → Option β → γ) : List γ :=
  ls.flatMap (fun a =>
    match rs.filter (fun b => p a b) with
    | [] => [mk a none]
    | ms => ms.map (fun b => mk a (some b)))

/-- A key is unique on a table when no two distinct rows carry the same
non-NULL key value. -/
def uniqueOn {β κ : Type} [DecidableEq κ] (rs : List β) (key : β → Option κ) : Prop :=
  List.Pairwise (fun r₁ r₂ => key r₁ = none ∨ key r₁ ≠ key r₂) rs

instance {β κ : Type} [DecidableEq κ] (rs : List β) (key : β → Option κ) :
    Decidable (uniqueOn rs key) := by
  unfold uniqueOn; infer_instance

/-- Characters removed by Python `str.strip()` with no argument. -/
def isPySpace (c : Char) : Bool :=
  c = ' ' || c = '\t' || c = '\n' || c = '\r' || c = '\x0b' || c = '\x0c'

/-- Python `line.strip()`: drop leading and trailing whitespace. -/
def pyStrip (l : List Char) : List Char :=
  ((l.dropWhile isPySpace).reverse.dropWhile isPySpace).reverse

/-- Split file content into lines the way `for line in f` does, with the
newline terminators removed. -/
def splitLines : List Char → List (List Char)
  | [] => []
  | c :: rest =>
    if c = '\n' then [] :: splitLines rest
    else
      match splitLines rest with
      | [] => [[c]]
      | l :: ls => (c :: l) :: ls

/-- One line of the repair pass: skip the line if blank after stripping,
otherwise remove a single trailing comma. -/
def cleanLine (l : List Char) : Option (List Char) :=
  let cleaned := pyStrip l
  if cleaned.isEmpty then none
  else if cleaned.getLast? = some ',' then some cleaned.dropLast
  else some cleaned

/-- Write the given lines out, each followed by one newline. -/
def joinLines (ls : List (List Char)) : List Char :=
  ls.foldr (fun l acc => l ++ '\n' :: acc) []

/-- The repair pass `fix_to_ndjson`: read the source line by line, discard blank lines,
strip a single trailing comma from each remaining line, and write the
result as a line-delimited document (content of the `_fixed` sibling file). -/
def fix_to_ndjson (content : List Char) : List Char :=
  joinLines ((splitLines content).filterMap cleanLine)

/-- The claim's well-formedness condition on a line-delimited document:
every line carries a single JSON object (here: its stripped text is a
non-empty brace-delimited chunk), no line is blank, and no line ends in a
trailing comma. Surrounding whitespace on a line is not excluded by the
condition. -/
def wellFormedNdjson (content : List Char) : Bool :=
  (splitLines content).all (fun l =>
    let c := pyStrip l
    !c.isEmpty && c.head? = some '{' && c.getLast? = some '}')


/-! ## Data model

Bronze (tier-1) columns hold raw, schema-inferred scalars; silver columns
hold one fixed semantic type each, nullable. `CAST` is modelled strictly:
it maps NULL to NULL, succeeds on a value already carrying the target
semantic type (with the exact `INTEGER -> DOUBLE` promotion), and fails the
stage otherwise; scalar coercions of string literals are outside the model.
`CAST` to VARCHAR never fails. -/

inductive Raw where
  | null : Raw
  | int (n : Int) : Raw
  | str (s : String) : Raw
  | boolean (b : Bool) : Raw
  | num (q : Rat) : Raw
  | date (day : Nat) : Raw
  deriving DecidableEq

def Raw.isNull : Raw → Bool
  | .null => true
  | _ => false

def castBigint : Raw → Except String (Option Int)
  | .null => .ok none
  | .int n => .ok (some n)
  | _ => .error "TypeConformanceError: BIGINT"

def castDouble : Raw → Except String (Option Rat)
  | .null => .ok none
  | .num q => .ok (some q)
  | .int n => .ok (some (n : Rat))
  | _ => .error "TypeConformanceError: DOUBLE"

def castBool : Raw → Except String (Option Bool)
  | .null => .ok none
  | .boolean b => .ok (some b)
  | _ => .error "TypeConformanceError: BOOLEAN"

def castDate : Raw → Except String (Option Nat)
  | .null => .ok none
  | .date d => .ok (some d)
  | _ => .error "TypeConformanceError: DATE"

def castVarchar : Raw → Option String
  | .null => none
  | .str s => some s
  | .int n => some (toString n)
  | .boolean b => some (if b then "true" else "false")
  | .num q => some (toString q)
  | .date d => some (toString d)

/-- Map a fallible cast over every kept row; the first failure fails the
whole stage (`TypeConformanceError` semantics: no per-row tolerance). -/
def exceptMapM {α β : Type} (f : α → Except String β) : List α → Except String (List β)
  | [] => .ok []
  | a :: as =>
    match f a with
    | .error e => .error e
    | .ok b =>
      match exceptMapM f as with
      | .error e => .error e
      | .ok bs => .ok (b :: bs)

structure BronzeCustomer where
  CustomerId : Raw
  Active : Raw
  Name : Raw
  Address : Raw
  City : Raw
  Country : Raw
  Email : Raw
  deriving DecidableEq

structure BronzeProduct where
  ProductId : Raw
  Name : Raw
  ManufacturedCountry : Raw
  WeightGrams : Raw
  deriving DecidableEq

structure BronzeOrder where
  OrderId : Raw
  CustomerId : Raw
  Date : Raw
  deriving DecidableEq

structure BronzeSale where
  SaleId : Raw
  OrderId : Raw
  ProductId : Raw
  Quantity : Raw
  deriving DecidableEq

/-- Bronze countries; the long free-text source headers are written here as
short identifiers (e.g. `AreaSqMi` stands for the raw header
"Area (sq. mi.)", `CoastPerArea` for "Coastline (coast per area ratio)"). -/
structure BronzeCountry where
  Country : Raw
  Currency : Raw
  Name : Raw
  Region : Raw
  Population : Raw
  AreaSqMi : Raw
  PopDensity : Raw
  CoastPerArea : Raw
  NetMigration : Raw
  InfantMortality : Raw
  GDPPerCapita : Raw
  LiteracyPct : Raw
  PhonesPer1000 : Raw
  ArablePct : Raw
  CropsPct : Raw
  OtherLandPct : Raw
  Climate : Raw
  Birthrate : Raw
  Deathrate : Raw
  Agriculture : Raw
  Industry : Raw
  Service : Raw
  deriving DecidableEq

structure SilverCustomer where
  CustomerId : Option Int
  Active : Option Bool
  Name : Option String
  Address : Option String
  City : Option String
  Country : Option String
  Email : Option String
  deriving DecidableEq

structure SilverProduct where
  ProductId : Option Int
  Name : Option String
  ManufacturedCountry : Option String
  WeightGrams : Option Rat
  deriving DecidableEq

structure SilverOrder where
  OrderId : Option Int
  CustomerId : Option Int
  Date : Option Nat
  deriving DecidableEq

structure SilverSale where
  SaleId : Option Int
  OrderId : Option Int
  ProductId : Option Int
  Quantity : Option Rat
  deriving DecidableEq

structure SilverCountry where
  Country : Option String
  Currency : Option String
  Name : Option String
  Region : Option String
  Population : Option Int
  AreaSqMi : Option Int
  PopDensity : Option Rat
  CoastPerArea : Option Rat
  NetMigration : Option Rat
  InfantMortality : Option Rat
  GDPPerCapita : Option Int
  LiteracyPct : Option Rat
  PhonesPer1000 : Option Rat
  ArablePct : Option Rat
  CropsPct : Option Rat
  OtherLandPct : Option Rat
  Climate : Option Rat
  Birthrate : Option Rat
  Deathrate : Option Rat
  Agriculture : Option Rat
  Industry : Option Rat
  Service : Option Rat
  deriving DecidableEq

/-! ## Conformance stage (`silver_load_clean.py`)

Each builder keeps exactly the rows whose primary identifier is not NULL
(the `WHERE ... IS NOT NULL` filter) and casts every column to its fixed
target type; a cast failure fails the stage. -/

def castCustomerRow (r : BronzeCustomer) : Except String SilverCustomer := do
  let cid ← castBigint r.CustomerId
  let act ← castBool r.Active
  pure { CustomerId := cid, Active := act, Name := castVarchar r.Name,
         Address := castVarchar r.Address, City := castVarchar r.City,
         Country := castVarchar r.Country, Email := castVarchar r.Email }

def create_silver_customers (bronze : List BronzeCustomer) :
    Except String (List SilverCustomer) :=
  exceptMapM castCustomerRow (bronze.filter (fun r => !r.CustomerId.isNull))

def castProductRow (r : BronzeProduct) : Except String SilverProduct := do
  let pid ← castBigint r.ProductId
  let w ← castDouble r.WeightGrams
  pure { ProductId := pid, Name := castVarchar r.Name,
         ManufacturedCountry := castVarchar r.ManufacturedCountry,
         WeightGrams := w }

def create_silver_products (bronze : List BronzeProduct) :
    Except String (List SilverProduct) :=
  exceptMapM castProductRow (bronze.filter (fun r => !r.ProductId.isNull))

def castOrderRow (r : BronzeOrder) : Except String SilverOrder := do
  let oid ← castBigint r.OrderId
  let cid ← castBigint r.CustomerId
  let d ← castDate r.Date
  pure { OrderId := oid, CustomerId := cid, Date := d }

def create_silver_orders (bronze : List BronzeOrder) :
    Except String (List SilverOrder) :=
  exceptMapM castOrderRow (bronze.filter (fun r => !r.OrderId.isNull))

def castSaleRow (r : BronzeSale) : Except String SilverSale := do
  let sid ← castBigint r.SaleId
  let oid ← castBigint r.OrderId
  let pid ← castBigint r.ProductId
  let q ← castDouble r.Quantity
  pure { SaleId := sid, OrderId := oid, ProductId := pid, Quantity := q }

def create_silver_sales (bronze : List BronzeSale) :
    Except String (List SilverSale) :=
  exceptMapM castSaleRow (bronze.filter (fun r => !r.SaleId.isNull))

def castCountryRow (r : BronzeCountry) : Except String SilverCountry := do
  let pop ← castBigint r.Population
  let area ← castBigint r.AreaSqMi
  let dens ← castDouble r.PopDensity
  let coast ← castDouble r.CoastPerArea
  let mig ← castDouble r.NetMigration
  let mort ← castDouble r.InfantMortality
  let gdp ← castBigint r.GDPPerCapita
  let lit ← castDouble r.LiteracyPct
  let ph ← castDouble r.PhonesPer1000
  let ar ← castDouble r.ArablePct
  let cr ← castDouble r.CropsPct
  let ot ← castDouble r.OtherLandPct
  let cl ← castDouble r.Climate
  let br ← castDouble r.Birthrate
  let dr ← castDouble r.Deathrate
  let ag ← castDouble r.Agriculture
  let ind ← castDouble r.Industry
  let sv ← castDouble r.Service
  pure { Country := castVarchar r.Country, Currency := castVarchar r.Currency,
         Name := castVarchar r.Name, Region := castVarchar r.Region,
         Population := pop, AreaSqMi := area, PopDensity := dens,
         CoastPerArea := coast, NetMigration := mig, InfantMortality := mort,
         GDPPerCapita := gdp, LiteracyPct := lit, PhonesPer1000 := ph,
         ArablePct := ar, CropsPct := cr, OtherLandPct := ot, Climate := cl,
         Birthrate := br, Deathrate := dr, Agriculture := ag, Industry := ind,
         Service := sv }

def create_silver_countries (bronze : List BronzeCountry) :
    Except String (List SilverCountry) :=
  exceptMapM castCountryRow (bronze.filter (fun r => !r.Country.isNull))


/-- Conformed fact view: left-join sale -> order -> customer -> product ->
country, one output row per sale line (duplicated only if a join key
matches several dimension rows). -/
structure FactRow where
  SaleId : Option Int
  Quantity : Option Rat
  OrderId : Option Int
  OrderDate : Option Nat
  CustomerId : Option Int
  CustomerName : Option String
  CustomerCountry : Option String
  CustomerCity : Option String
  ProductId : Option Int
  ProductName : Option String
  ProductCountry : Option String
  CountryCurrency : Option String
  CountryGDPPerCapita : Option Int
  deriving DecidableEq

def create_silver_fact_sales (sales : List SilverSale) (orders : List SilverOrder)
    (customers : List SilverCustomer) (products : List SilverProduct)
    (countries : List SilverCountry) : List FactRow :=
  leftJoin
    (leftJoin
      (leftJoin
        (leftJoin sales orders
          (fun s o => optEq s.OrderId o.OrderId) (fun s o => (s, o)))
        customers
        (fun so c => optEq (so.2.bind (fun o => o.CustomerId)) c.CustomerId)
        (fun so c => (so.1, so.2, c)))
      products
      (fun soc p => optEq soc.1.ProductId p.ProductId)
      (fun soc p => (soc.1, soc.2.1, soc.2.2, p)))
    countries
    (fun socp k => optEq (socp.2.2.1.bind (fun c => c.Country)) k.Country)
    (fun socp k =>
      { SaleId := socp.1.SaleId
        Quantity := socp.1.Quantity
        OrderId := socp.2.1.bind (fun r => r.OrderId)
        OrderDate := socp.2.1.bind (fun r => r.Date)
        CustomerId := socp.2.2.1.bind (fun r => r.CustomerId)
        CustomerName := socp.2.2.1.bind (fun r => r.Name)
        CustomerCountry := socp.2.2.1.bind (fun r => r.Country)
        CustomerCity := socp.2.2.1.bind (fun r => r.City)
        ProductId := socp.2.2.2.bind (fun r => r.ProductId)
        ProductName := socp.2.2.2.bind (fun r => r.Name)
        ProductCountry := socp.2.2.2.bind (fun r => r.ManufacturedCountry)
        CountryCurrency := k.bind (fun r => r.Currency)
        CountryGDPPerCapita := k.bind (fun r => r.GDPPerCapita) })

/-- Diagnostic one of `run_quality_checks`: orders with no matching customer
(`LEFT JOIN` then `WHERE c.CustomerId IS NULL`). -/
def countMissingCustomers (orders : List SilverOrder)
    (customers : List SilverCustomer) : Nat :=
  ((leftJoin orders customers
      (fun o c => optEq o.CustomerId c.CustomerId) (fun o c => (o, c))).filter
    (fun oc => (oc.2.bind (fun c => c.CustomerId)).isNone)).length

/-- Diagnostic two of `run_quality_checks`: sales with no matching order. -/
def countMissingOrders (sales : List SilverSale) (orders : List SilverOrder) : Nat :=
  ((leftJoin sales orders
      (fun s o => optEq s.OrderId o.OrderId) (fun s o => (s, o))).filter
    (fun so => (so.2.bind (fun o => o.OrderId)).isNone)).length

/-- Diagnostic three of `run_quality_checks`: sales with no matching product. -/
def countMissingProducts (sales : List SilverSale) (products : List SilverProduct) : Nat :=
  ((leftJoin sales products
      (fun s p => optEq s.ProductId p.ProductId) (fun s p => (s, p))).filter
    (fun sp => (sp.2.bind (fun p => p.ProductId)).isNone)).length

/-! ## Proleptic Gregorian dates

A DATE value is a day count `n : Nat`, day 0 being 0001-01-01 of the
proleptic Gregorian calendar (DuckDB date arithmetic on the range the
pipeline touches). `ymdOfDay` realizes the day count as a
year/month/day triple by iterating the calendar successor. -/

structure Ymd where
  year : Nat
  month : Nat
  day : Nat
  deriving DecidableEq

def isLeapYear (y : Nat) : Bool :=
  (y % 4 = 0 && y % 100 != 0) || y % 400 = 0

def daysInMonth (y : Nat) (m : Nat) : Nat :=
  match m with
  | 1 => 31
  | 2 => if isLeapYear y then 29 else 28
  | 3 => 31
  | 4 => 30
  | 5 => 31
  | 6 => 30
  | 7 => 31
  | 8 => 31
  | 9 => 30
  | 10 => 31
  | 11 => 30
  | 12 => 31
  | _ => 0

def validYmd (x : Ymd) : Bool :=
  1 ≤ x.month && x.month ≤ 12 && 1 ≤ x.day && x.day ≤ daysInMonth x.year x.month

/-- Calendar successor (the `INTERVAL 1 DAY` step of the series). -/
def nextDay (x : Ymd) : Ymd :=
  if x.day < daysInMonth x.year x.month then ⟨x.year, x.month, x.day + 1⟩
  else if x.month < 12 then ⟨x.year, x.month + 1, 1⟩
  else ⟨x.year + 1, 1, 1⟩

def ymdOfDay (n : Nat) : Ymd :=
  nextDay^[n] ⟨1, 1, 1⟩

/-- The integer `YYYYMMDD` key: `CAST(STRFTIME(Date, percent-YmD) AS INTEGER)`. -/
def dateKey (x : Ymd) : Nat :=
  x.year * 10000 + x.month * 100 + x.day

/-- The `EXTRACT(DOW ...)` attribute: Sunday = 0 .. Saturday = 6 (0001-01-01 is a Monday). -/
def dayOfWeek (n : Nat) : Nat :=
  (n + 1) % 7

def monthName (m : Nat) : String :=
  match m with
  | 1 => "January" | 2 => "February" | 3 => "March" | 4 => "April"
  | 5 => "May" | 6 => "June" | 7 => "July" | 8 => "August"
  | 9 => "September" | 10 => "October" | 11 => "November" | 12 => "December"
  | _ => ""

def dayOfWeekName (dow : Nat) : String :=
  match dow with
  | 0 => "Sunday" | 1 => "Monday" | 2 => "Tuesday" | 3 => "Wednesday"
  | 4 => "Thursday" | 5 => "Friday" | 6 => "Saturday"
  | _ => ""

def dayOfYear (x : Ymd) : Nat :=
  (List.range (x.month - 1)).foldl (fun acc i => acc + daysInMonth x.year (i + 1)) 0 + x.day

/-- Helper for the ISO week rule: weekday of 31 December of year `y`. -/
def isoYearAnchor (y : Nat) : Nat :=
  (y + y / 4 - y / 100 + y / 400) % 7

def isoLongYear (y : Nat) : Bool :=
  isoYearAnchor y = 4 || (y ≥ 1 && isoYearAnchor (y - 1) = 3)

/-- The `EXTRACT(WEEK ...)` attribute: ISO-8601 week number. -/
def isoWeek (n : Nat) : Nat :=
  let x := ymdOfDay n
  let isoDow := n % 7 + 1
  let w := (dayOfYear x + 10 - isoDow) / 7
  if w = 0 then (if isoLongYear (x.year - 1) then 53 else 52)
  else if w = 53 && !isoLongYear x.year then 1
  else w

/-! ## Dimensional modeling stage (`step03_gold_load.py`) -/

structure DimDateRow where
  DateKey : Nat
  Date : Nat
  Year : Nat
  Quarter : Nat
  Month : Nat
  MonthName : String
  YearMonth : Nat
  WeekOfYear : Nat
  DayOfWeek : Nat
  DayOfWeekName : String
  IsWeekend : Bool
  deriving DecidableEq

/-- One calendar row, with every attribute derived from the date value. -/
def mkDateRow (n : Nat) : DimDateRow :=
  let x := ymdOfDay n
  { DateKey := dateKey x
    Date := n
    Year := x.year
    Quarter := (x.month - 1) / 3 + 1
    Month := x.month
    MonthName := monthName x.month
    YearMonth := x.year * 100 + x.month
    WeekOfYear := isoWeek n
    DayOfWeek := dayOfWeek n
    DayOfWeekName := dayOfWeekName (dayOfWeek n)
    IsWeekend := dayOfWeek n = 0 || dayOfWeek n = 6 }

/-- The series `GENERATE_SERIES(lo, hi, INTERVAL 1 DAY)`: the inclusive day range,
empty when `lo > hi`. -/
def genSeries (lo hi : Nat) : List Nat :=
  if _h : lo ≤ hi then lo :: genSeries (lo + 1) hi else []
termination_by hi + 1 - lo
decreasing_by omega

/-- Aggregate `MIN(Date)` over a column: NULLs are ignored; NULL on an empty set. -/
def aggMin : List Nat → Option Nat
  | [] => none
  | x :: xs =>
    match aggMin xs with
    | none => some x
    | some m => some (min x m)

/-- Aggregate `MAX(Date)` over a column: NULLs are ignored; NULL on an empty set. -/
def aggMax : List Nat → Option Nat
  | [] => none
  | x :: xs =>
    match aggMax xs with
    | none => some x
    | some m => some (max x m)

/-- The non-NULL order dates that feed the calendar bounds. -/
def orderDates (orders : List SilverOrder) : List Nat :=
  orders.filterMap (fun o => o.Date)

/-- The builder `create_gold_dim_date`: one row per day of the inclusive
`[MIN(Date), MAX(Date)]` range of the conformed orders. When the bounds
are NULL (no orders, or only NULL dates) the `GENERATE_SERIES` over NULL
unnests to no rows and the table is created empty — no error is raised. -/
def create_gold_dim_date (orders : List SilverOrder) : List DimDateRow :=
  match aggMin (orderDates orders), aggMax (orderDates orders) with
  | some mn, some mx => (genSeries mn mx).map mkDateRow
  | _, _ => []

/-- NULL-propagating SQL multiplication (`f.Quantity * p.WeightGrams`). -/
def mulOpt (a b : Option Rat) : Option Rat :=
  match a, b with
  | some x, some y => some (x * y)
  | _, _ => none

structure GoldFactRow where
  SaleId : Option Int
  OrderId : Option Int
  DateKey : Option Nat
  CustomerId : Option Int
  ProductId : Option Int
  Country : Option String
  Quantity : Option Rat
  WeightGrams : Option Rat
  TotalWeightGrams : Option Rat
  deriving DecidableEq

/-- The builder `create_gold_fact_sales`: the conformed fact view left-joined to the
calendar dimension on the date value and to the conformed products on
product id, with the derived total-weight measure. -/
def create_gold_fact_sales (fv : List FactRow) (dimDate : List DimDateRow)
    (products : List SilverProduct) : List GoldFactRow :=
  leftJoin (leftJoin fv dimDate
      (fun f d => optEq f.OrderDate (some d.Date)) (fun f d => (f, d)))
    products
    (fun fd p => optEq fd.1.ProductId p.ProductId)
    (fun fd p =>
      let f := fd.1
      let od := fd.2
      { SaleId := f.SaleId
        OrderId := f.OrderId
        DateKey := od.map (fun d => d.DateKey)
        CustomerId := f.CustomerId
        ProductId := f.ProductId
        Country := f.CustomerCountry
        Quantity := f.Quantity
        WeightGrams := p.bind (fun r => r.WeightGrams)
        TotalWeightGrams := mulOpt f.Quantity (p.bind (fun r => r.WeightGrams)) })


/-! ## Bronze loader control flow (`load_bronze_table`) and stage mains

The embedded analytical engine is abstracted: a parser takes the raw
file content to either a parsed record list or an `InvalidInputException`
message, and the database is a name-to-records map updated wholesale by
`CREATE OR REPLACE TABLE`. -/

inductive LoadEvent where
  | strictAttempt : LoadEvent
  | repairPass : LoadEvent
  | retryAttempt : LoadEvent
  deriving DecidableEq

inductive LoadError where
  | fileNotFound (path : String) : LoadError
  | invalidInput (msg : String) : LoadError
  deriving DecidableEq

def TableStore (ρ : Type) : Type := List (String × List ρ)

/-- Statement `CREATE OR REPLACE TABLE name AS ...`: the table is replaced wholesale. -/
def storePut {ρ : Type} (db : TableStore ρ) (name : String) (recs : List ρ) :
    TableStore ρ :=
  (name, recs) :: db.filter (fun t => t.1 ≠ name)

def storeGet {ρ : Type} (db : TableStore ρ) (name : String) : Option (List ρ) :=
  (db.find? (fun t => t.1 = name)).map (fun t => t.2)

/-- The loader `load_bronze_table`: strict parse first; on an
`InvalidInputException`, repair the file once with `fix_to_ndjson` and
retry with the line-delimited parser; a failure of the retry is raised.
Returns the trace of attempts alongside the outcome. -/
def load_bronze_table {ρ : Type}
    (strictParse ndjsonParse : List Char → Except String (List ρ))
    (fileExists : Bool) (content : List Char)
    (db : TableStore ρ) (tableName : String) :
    List LoadEvent × Except LoadError (TableStore ρ) :=
  if !fileExists then ([], .error (.fileNotFound tableName))
  else
    match strictParse content with
    | .ok recs => ([.strictAttempt], .ok (storePut db tableName recs))
    | .error _ =>
      match ndjsonParse (fix_to_ndjson content) with
      | .ok recs =>
        ([.strictAttempt, .repairPass, .retryAttempt],
         .ok (storePut db tableName recs))
      | .error e2 =>
        ([.strictAttempt, .repairPass, .retryAttempt],
         .error (.invalidInput e2))

/-- Run stage steps in order; the first raised error aborts the rest. -/
def runSeq {ε : Type} : List (Except ε Unit) → Except ε Unit
  | [] => .ok ()
  | .ok _ :: rest => runSeq rest
  | .error e :: _ => .error e

/-- The ingestion stage main (`step01_bronze_load.py`): connect, load each table in order, then
`con.close()` — with no `try/finally`, so a raised load error propagates
out before the close runs. Result: (is the connection still open at stage
exit, stage outcome). -/
def bronzeMain {ε : Type} (loads : List (Except ε Unit)) : Bool × Except ε Unit :=
  match runSeq loads with
  | .ok _ => (false, .ok ())
  | .error e => (true, .error e)

/-- The conformance stage main (`silver_load_clean.py`): the builders run inside `try:` with
`con.close()` in `finally:`, so the connection is closed on success and
on error alike. -/
def silverMain {ε : Type} (steps : List (Except ε Unit)) : Bool × Except ε Unit :=
  (false, runSeq steps)

/-- The modeling stage main (`step03_gold_load.py`): a missing database file is raised before the
connection is opened; otherwise the builders run inside `try/finally`
with the close in `finally:`. -/
def goldMain {ε : Type} (dbFileMissingError : ε) (dbExists : Bool)
    (steps : List (Except ε Unit)) : Bool × Except ε Unit :=
  if !dbExists then (false, .error dbFileMissingError)
  else (false, runSeq steps)

/-! ## Lemmas -/

theorem optEq_none_left {κ : Type} [DecidableEq κ] (b : Option κ) :
    optEq (none : Option κ) b = false := by
  cases b <;> rfl

theorem optEq_eq_true_iff {κ : Type} [DecidableEq κ] (a b : Option κ) :
    optEq a b = true ↔ ∃ v, a = some v ∧ b = some v := by
  cases a <;> cases b <;> simp [optEq]
  exact eq_comm

theorem filter_optEq_length_le_one {β κ : Type} [DecidableEq κ]
    (rs : List β) (key : β → Option κ) (hu : uniqueOn rs key) (k : Option κ) :
    (rs.filter (fun r => optEq k (key r))).length ≤ 1 := by
  induction rs with
  | nil => simp
  | cons r rest ih =>
    have hu' : uniqueOn rest key := hu.of_cons
    have hhead := fun r' (hr' : r' ∈ rest) => List.rel_of_pairwise_cons hu hr'
    by_cases hr : optEq k (key r) = true
    · -- the head matches: no element of the tail can match
      have hk : ∃ v, k = some v ∧ key r = some v := (optEq_eq_true_iff _ _).mp hr
      obtain ⟨v, hkv, hrv⟩ := hk
      have htail : rest.filter (fun r' => optEq k (key r')) = [] := by
        apply List.filter_eq_nil_iff.mpr
        intro r' hr'
        intro hmatch
        obtain ⟨v', hkv', hrv'⟩ := (optEq_eq_true_iff _ _).mp hmatch
        have : v' = v := by rw [hkv] at hkv'; exact (Option.some_inj.mp hkv').symm
        subst this
        rcases hhead r' hr' with h | h
        · rw [hrv] at h; exact Option.noConfusion h
        · exact h (hrv.trans hrv'.symm)
      simp [List.filter_cons, hr, htail]
    · simp only [List.filter_cons, hr]
      simpa using ih hu'

theorem leftJoin_length_of_le_one {α β γ : Type} (ls : List α) (rs : List β)
    (p : α → β → Bool) (mk : α → Option β → γ)
    (h : ∀ a ∈ ls, (rs.filter (fun b => p a b)).length ≤ 1) :
    (leftJoin ls rs p mk).length = ls.length := by
  induction ls with
  | nil => rfl
  | cons a as ih =>
    have ha := h a (List.mem_cons_self a as)
    have has : ∀ a' ∈ as, (rs.filter (fun b => p a' b)).length ≤ 1 :=
      fun a' ha' => h a' (List.mem_cons_of_mem a ha')
    simp only [leftJoin, List.flatMap_cons] at *
    rw [List.length_append, ih has]
    match hm : rs.filter (fun b => p a b) with
    | [] => simp; omega
    | [b] => simp; omega
    | b₁ :: b₂ :: ms => rw [hm] at ha; simp at ha

theorem leftJoin_map_proj {α β γ δ : Type} (ls : List α) (rs : List β)
    (p : α → β → Bool) (mk : α → Option β → γ) (proj : γ → δ) (projL : α → δ)
    (hmk : ∀ a ob, proj (mk a ob) = projL a)
    (h : ∀ a ∈ ls, (rs.filter (fun b => p a b)).length ≤ 1) :
    (leftJoin ls rs p mk).map proj = ls.map projL := by
  induction ls with
  | nil => rfl
  | cons a as ih =>
    have ha := h a (List.mem_cons_self a as)
    have has : ∀ a' ∈ as, (rs.filter (fun b => p a' b)).length ≤ 1 :=
      fun a' ha' => h a' (List.mem_cons_of_mem a ha')
    simp only [leftJoin, List.flatMap_cons, List.map_append, List.map_cons] at *
    rw [ih has]
    match hm : rs.filter (fun b => p a b) with
    | [] => simp [hmk]
    | [b] => simp [hmk]
    | b₁ :: b₂ :: ms => rw [hm] at ha; simp at ha

/-- Everything produced by a left join comes from a left row, paired either
with `none` (no match in the right table) or with a matching right row. -/
theorem mem_leftJoin {α β γ : Type} {ls : List α} {rs : List β}
    {p : α → β → Bool} {mk : α → Option β → γ} {c : γ}
    (hc : c ∈ leftJoin ls rs p mk) :
    ∃ a ∈ ls,
      (rs.filter (fun b => p a b) = [] ∧ c = mk a none) ∨
      (∃ b ∈ rs, p a b = true ∧ c = mk a (some b)) := by
  simp only [leftJoin, List.mem_flatMap] at hc
  obtain ⟨a, ha, hc⟩ := hc
  refine ⟨a, ha, ?_⟩
  match hm : rs.filter (fun b => p a b) with
  | [] =>
    rw [hm] at hc
    simp at hc
    exact Or.inl ⟨rfl, hc⟩
  | m :: ms =>
    rw [hm] at hc
    simp only [List.mem_map] at hc
    obtain ⟨b, hb, hcb⟩ := hc
    have hbmem : b ∈ rs.filter (fun b => p a b) := hm ▸ hb
    have := List.mem_filter.mp hbmem
    exact Or.inr ⟨b, this.1, this.2, hcb.symm⟩

/-- A left row whose match set is empty contributes exactly its NULL-padded
row to the join output. -/
theorem mk_none_mem_leftJoin {α β γ : Type} {ls : List α} {rs : List β}
    {p : α → β → Bool} {mk : α → Option β → γ} {a : α}
    (ha : a ∈ ls) (hm : rs.filter (fun b => p a b) = []) :
    mk a none ∈ leftJoin ls rs p mk := by
  simp only [leftJoin, List.mem_flatMap]
  exact ⟨a, ha, by rw [hm]; simp⟩

theorem splitLines_eq_nil_iff (cs : List Char) : splitLines cs = [] ↔ cs = [] := by
  constructor
  · intro h
    cases cs with
    | nil => rfl
    | cons c rest =>
      simp only [splitLines] at h
      by_cases hc : c = '\n'
      · simp [hc] at h
      · simp only [if_neg hc] at h
        match hm : splitLines rest with
        | [] => rw [hm] at h; simp at h
        | l :: ls => rw [hm] at h; simp at h
  · intro h; subst h; rfl

/-- Lines produced by `splitLines` never contain a newline character. -/
theorem splitLines_no_newline (cs : List Char) :
    ∀ l ∈ splitLines cs, '\n' ∉ l := by
  induction cs with
  | nil => intro l hl; simp [splitLines] at hl
  | cons c rest ih =>
    intro l hl
    simp only [splitLines] at hl
    by_cases hc : c = '\n'
    · rw [if_pos hc] at hl
      rcases List.mem_cons.mp hl with h | h
      · subst h; simp
      · exact ih l h
    · rw [if_neg hc] at hl
      match hm : splitLines rest with
      | [] =>
        rw [hm] at hl
        simp at hl
        subst hl
        simp only [List.mem_singleton]
        exact fun h => hc h.symm
      | l' :: ls =>
        rw [hm] at hl
        rcases List.mem_cons.mp hl with h | h
        · subst h
          intro hmem
          rcases List.mem_cons.mp hmem with h | h
          · exact hc h.symm
          · exact ih l' (hm ▸ List.mem_cons_self l' ls) h
        · exact ih l (hm ▸ List.mem_cons_of_mem l' h)

/-- Re-joining the split lines recovers the content, up to the trailing
newline that the writer appends after the last (possibly unterminated) line. -/
theorem joinLines_splitLines (cs : List Char) :
    joinLines (splitLines cs) = cs ∨ joinLines (splitLines cs) = cs ++ ['\n'] := by
  induction cs with
  | nil => left; rfl
  | cons c rest ih =>
    simp only [splitLines]
    by_cases hc : c = '\n'
    · rw [if_pos hc, hc]
      simp only [joinLines, List.foldr_cons, List.nil_append]
      rcases ih with h | h
      · left; rw [show List.foldr (fun l acc => l ++ '\n' :: acc) [] (splitLines rest) = joinLines (splitLines rest) from rfl, h]
      · right; rw [show List.foldr (fun l acc => l ++ '\n' :: acc) [] (splitLines rest) = joinLines (splitLines rest) from rfl, h]; simp
    · rw [if_neg hc]
      match hm : splitLines rest with
      | [] =>
        have : rest = [] := (splitLines_eq_nil_iff rest).mp hm
        subst this
        right; rfl
      | l :: ls =>
        rw [hm] at ih
        simp only [joinLines, List.foldr_cons, List.cons_append] at *
        rcases ih with h | h
        · left; rw [h]
        · right; rw [h]

/-- Splitting freshly written lines recovers exactly those lines, provided
none of them contains a newline. -/
theorem splitLines_joinLines (ls : List (List Char))
    (h : ∀ l ∈ ls, '\n' ∉ l) :
    splitLines (joinLines ls) = ls := by
  induction ls with
  | nil => rfl
  | cons l rest ih =>
    have hl : '\n' ∉ l := h l (List.mem_cons_self l rest)
    have hrest : ∀ l' ∈ rest, '\n' ∉ l' := fun l' hl' => h l' (List.mem_cons_of_mem l hl')
    have key : ∀ (line : List Char), '\n' ∉ line →
        splitLines (line ++ '\n' :: joinLines rest) = line :: splitLines (joinLines rest) := by
      intro line
      induction line with
      | nil => intro _; simp [splitLines]
      | cons c cs ihc =>
        intro hnotin
        have hc : c ≠ '\n' := fun h' => hnotin (h' ▸ List.mem_cons_self c cs)
        have hcs : '\n' ∉ cs := fun h' => hnotin (List.mem_cons_of_mem c h')
        simp only [List.cons_append, splitLines, if_neg hc, List.append_eq]
        rw [ihc hcs]
    show splitLines (l ++ '\n' :: joinLines rest) = l :: rest
    rw [key l hl, ih hrest]

theorem validYmd_iff (x : Ymd) :
    validYmd x = true ↔
      1 ≤ x.month ∧ x.month ≤ 12 ∧ 1 ≤ x.day ∧ x.day ≤ daysInMonth x.year x.month := by
  simp [validYmd, Bool.and_eq_true, decide_eq_true_eq, and_assoc]

theorem daysInMonth_pos (y m : Nat) (h1 : 1 ≤ m) (h12 : m ≤ 12) :
    1 ≤ daysInMonth y m := by
  interval_cases m <;> simp [daysInMonth] <;> split <;> omega

theorem daysInMonth_le (y m : Nat) : daysInMonth y m ≤ 31 := by
  unfold daysInMonth
  split <;> try omega
  split <;> omega

theorem validYmd_nextDay (x : Ymd) (h : validYmd x = true) :
    validYmd (nextDay x) = true := by
  rw [validYmd_iff] at h
  obtain ⟨hm1, hm12, hd1, hdm⟩ := h
  rw [validYmd_iff]
  unfold nextDay
  split
  · dsimp only
    exact ⟨hm1, hm12, by omega, by omega⟩
  · split
    · dsimp only
      rename_i hm
      exact ⟨by omega, by omega, le_refl 1,
        daysInMonth_pos x.year (x.month + 1) (by omega) (by omega)⟩
    · dsimp only
      exact ⟨le_refl 1, by omega, le_refl 1,
        daysInMonth_pos (x.year + 1) 1 (by omega) (by omega)⟩

theorem dateKey_lt_nextDay (x : Ymd) (h : validYmd x = true) :
    dateKey x < dateKey (nextDay x) := by
  rw [validYmd_iff] at h
  obtain ⟨hm1, hm12, hd1, hdm⟩ := h
  have hd31 : x.day ≤ 31 := le_trans hdm (daysInMonth_le x.year x.month)
  unfold nextDay dateKey
  split
  · dsimp only; omega
  · split
    · dsimp only; omega
    · rename_i hlt hm
      have h12 : x.month = 12 := by omega
      dsimp only; omega

theorem validYmd_ymdOfDay (n : Nat) : validYmd (ymdOfDay n) = true := by
  induction n with
  | zero => rfl
  | succ k ih =>
    unfold ymdOfDay at *
    rw [Function.iterate_succ_apply']
    exact validYmd_nextDay _ ih

theorem dateKey_ymdOfDay_strictMono :
    StrictMono (fun n => dateKey (ymdOfDay n)) := by
  apply strictMono_nat_of_lt_succ
  intro n
  show dateKey (ymdOfDay n) < dateKey (ymdOfDay (n + 1))
  unfold ymdOfDay
  rw [Function.iterate_succ_apply']
  exact dateKey_lt_nextDay _ (validYmd_ymdOfDay n)

theorem genSeries_length (lo hi : Nat) : (genSeries lo hi).length = hi + 1 - lo := by
  induction lo, hi using genSeries.induct with
  | case1 lo hi h ih =>
    rw [genSeries, dif_pos h, List.length_cons, ih]
    omega
  | case2 lo hi h =>
    rw [genSeries, dif_neg h]
    simp
    omega

theorem mem_genSeries (lo hi n : Nat) : n ∈ genSeries lo hi ↔ lo ≤ n ∧ n ≤ hi := by
  induction lo, hi using genSeries.induct with
  | case1 lo hi h ih =>
    rw [genSeries, dif_pos h, List.mem_cons, ih]
    constructor
    · rintro (rfl | ⟨h1, h2⟩) <;> omega
    · rintro ⟨h1, h2⟩
      rcases Nat.eq_or_lt_of_le h1 with rfl | hlt
      · exact Or.inl rfl
      · exact Or.inr ⟨by omega, h2⟩
  | case2 lo hi h =>
    rw [genSeries, dif_neg h]
    simp
    omega

theorem genSeries_pairwise_lt (lo hi : Nat) :
    List.Pairwise (fun a b => a < b) (genSeries lo hi) := by
  induction lo, hi using genSeries.induct with
  | case1 lo hi h ih =>
    rw [genSeries, dif_pos h]
    refine List.Pairwise.cons ?_ ih
    intro n hn
    have := (mem_genSeries (lo + 1) hi n).mp hn
    omega
  | case2 lo hi h =>
    rw [genSeries, dif_neg h]
    exact List.Pairwise.nil

theorem aggMin_ne_none (x : Nat) (xs : List Nat) : aggMin (x :: xs) ≠ none := by
  rw [aggMin]
  cases aggMin xs <;> simp

theorem aggMax_ne_none (x : Nat) (xs : List Nat) : aggMax (x :: xs) ≠ none := by
  rw [aggMax]
  cases aggMax xs <;> simp

theorem aggMin_spec (l : List Nat) (m : Nat) (h : aggMin l = some m) :
    m ∈ l ∧ ∀ x ∈ l, m ≤ x := by
  induction l generalizing m with
  | nil => simp [aggMin] at h
  | cons x xs ih =>
    rw [aggMin] at h
    cases hm : aggMin xs with
    | none =>
      rw [hm] at h
      have hx : m = x := by simpa using h.symm
      subst hx
      refine ⟨List.mem_cons_self _ _, ?_⟩
      intro y hy
      rcases List.mem_cons.mp hy with rfl | hymem
      · exact le_refl _
      · cases xs with
        | nil => simp at hymem
        | cons z zs => exact absurd hm (aggMin_ne_none z zs)
    | some k =>
      rw [hm] at h
      have hx : m = min x k := by simpa using h.symm
      subst hx
      obtain ⟨hkmem, hkle⟩ := ih k hm
      constructor
      · rcases le_total x k with hle | hle
        · rw [min_eq_left hle]; exact List.mem_cons_self _ _
        · rw [min_eq_right hle]; exact List.mem_cons_of_mem _ hkmem
      · intro y hy
        rcases List.mem_cons.mp hy with rfl | hymem
        · exact min_le_left _ _
        · exact le_trans (min_le_right _ _) (hkle y hymem)

theorem aggMax_spec (l : List Nat) (m : Nat) (h : aggMax l = some m) :
    m ∈ l ∧ ∀ x ∈ l, x ≤ m := by
  induction l generalizing m with
  | nil => simp [aggMax] at h
  | cons x xs ih =>
    rw [aggMax] at h
    cases hm : aggMax xs with
    | none =>
      rw [hm] at h
      have hx : m = x := by simpa using h.symm
      subst hx
      refine ⟨List.mem_cons_self _ _, ?_⟩
      intro y hy
      rcases List.mem_cons.mp hy with rfl | hymem
      · exact le_refl _
      · cases xs with
        | nil => simp at hymem
        | cons z zs => exact absurd hm (aggMax_ne_none z zs)
    | some k =>
      rw [hm] at h
      have hx : m = max x k := by simpa using h.symm
      subst hx
      obtain ⟨hkmem, hkle⟩ := ih k hm
      constructor
      · rcases le_total x k with hle | hle
        · rw [max_eq_right hle]; exact List.mem_cons_of_mem _ hkmem
        · rw [max_eq_left hle]; exact List.mem_cons_self _ _
      · intro y hy
        rcases List.mem_cons.mp hy with rfl | hymem
        · exact le_max_left _ _
        · exact le_trans (hkle y hymem) (le_max_right _ _)

/-- Claim C1: for every conformed order set with at least one non-NULL
order date, the calendar dimension has exactly
`(max_order_date - min_order_date).days + 1` rows; its `Date` column covers
each day of the inclusive range exactly once (no gaps, no duplicates); and
the integer `YYYYMMDD` `DateKey` is strictly increasing with the date value,
hence a strictly monotonic bijection with the dates in the range. -/
theorem calendar_dimension_complete_and_monotone
    (orders : List SilverOrder) (mn mx : Nat)
    (hmn : aggMin (orderDates orders) = some mn)
    (hmx : aggMax (orderDates orders) = some mx) :
    (create_gold_dim_date orders).length = (mx - mn) + 1 ∧
    (∀ n : Nat,
      n ∈ (create_gold_dim_date orders).map (fun r => r.Date) ↔ mn ≤ n ∧ n ≤ mx) ∧
    List.Pairwise (fun a b => a.Date < b.Date ∧ a.DateKey < b.DateKey)
      (create_gold_dim_date orders) := by
  have hmnle : mn ≤ mx := by
    obtain ⟨hmem, _⟩ := aggMin_spec _ _ hmn
    obtain ⟨_, hub⟩ := aggMax_spec _ _ hmx
    exact hub mn hmem
  unfold create_gold_dim_date
  rw [hmn, hmx]
  refine ⟨?_, ?_, ?_⟩
  · rw [List.length_map, genSeries_length]
    omega
  · intro n
    rw [List.map_map]
    have hid : ((fun r : DimDateRow => r.Date) ∘ mkDateRow) = id :=
      funext (fun _ => rfl)
    rw [hid, List.map_id]
    exact mem_genSeries mn mx n
  · refine List.Pairwise.map mkDateRow ?_ (genSeries_pairwise_lt mn mx)
    intro a b hab
    exact ⟨hab, dateKey_ymdOfDay_strictMono hab⟩

theorem calendar_dimension_complete_and_monotone_witness :
    aggMin (orderDates [⟨some 1, some 10, some 3⟩, ⟨some 2, none, some 5⟩]) = some 3 ∧
    aggMax (orderDates [⟨some 1, some 10, some 3⟩, ⟨some 2, none, some 5⟩]) = some 5 ∧
    ((create_gold_dim_date [⟨some 1, some 10, some 3⟩, ⟨some 2, none, some 5⟩]).length = (5 - 3) + 1 ∧
     (∀ n : Nat,
       n ∈ (create_gold_dim_date [⟨some 1, some 10, some 3⟩, ⟨some 2, none, some 5⟩]).map
         (fun r => r.Date) ↔ 3 ≤ n ∧ n ≤ 5) ∧
     List.Pairwise (fun a b => a.Date < b.Date ∧ a.DateKey < b.DateKey)
       (create_gold_dim_date [⟨some 1, some 10, some 3⟩, ⟨some 2, none, some 5⟩])) :=
  ⟨rfl, rfl,
    calendar_dimension_complete_and_monotone
      [⟨some 1, some 10, some 3⟩, ⟨some 2, none, some 5⟩] 3 5 rfl rfl⟩

/-- Claim C5, counterexample: with zero conformed orders the calendar
builder does not signal an error — the aggregate bounds are NULL, the
series over NULL unnests to no rows, and `gold_dim_date` is created as an
empty table. Evaluating the embedded builder on the empty orders table
returns the empty calendar normally. -/
theorem create_gold_dim_date_empty_orders_no_error :
    create_gold_dim_date [] = [] := rfl

/-- Claim C5, amended: if the conformed orders table has no non-NULL order
date (in particular when it has zero rows), `create_gold_dim_date`
completes without error and produces an empty calendar dimension. -/
theorem create_gold_dim_date_empty_of_no_dates (orders : List SilverOrder)
    (h : orderDates orders = []) : create_gold_dim_date orders = [] := by
  unfold create_gold_dim_date
  rw [h]
  rfl

theorem create_gold_dim_date_empty_of_no_dates_witness :
    orderDates [⟨some 7, some 1, none⟩] = [] ∧
    create_gold_dim_date [⟨some 7, some 1, none⟩] = [] :=
  ⟨rfl, create_gold_dim_date_empty_of_no_dates [⟨some 7, some 1, none⟩] rfl⟩

/-- Claim C2: when each dimension-side join key is unique on its table, the
conformed fact view keeps exactly one row per conformed sale — the row
count equals the sales row count and the `SaleId` column is preserved in
order (no sale dropped, none duplicated). -/
theorem fact_view_row_count_preserved
    (sales : List SilverSale) (orders : List SilverOrder)
    (customers : List SilverCustomer) (products : List SilverProduct)
    (countries : List SilverCountry)
    (hO : uniqueOn orders (fun o => o.OrderId))
    (hC : uniqueOn customers (fun c => c.CustomerId))
    (hP : uniqueOn products (fun p => p.ProductId))
    (hK : uniqueOn countries (fun k => k.Country)) :
    (create_silver_fact_sales sales orders customers products countries).length
      = sales.length ∧
    (create_silver_fact_sales sales orders customers products countries).map
        (fun f => f.SaleId)
      = sales.map (fun s => s.SaleId) := by
  unfold create_silver_fact_sales
  have h1 : ∀ s ∈ sales,
      (orders.filter (fun o => optEq s.OrderId o.OrderId)).length ≤ 1 :=
    fun s _ => filter_optEq_length_le_one orders _ hO s.OrderId
  have h2 : ∀ (so : SilverSale × Option SilverOrder) (ls : List (SilverSale × Option SilverOrder)),
      so ∈ ls →
      (customers.filter
        (fun c => optEq (so.2.bind (fun o => o.CustomerId)) c.CustomerId)).length ≤ 1 :=
    fun so _ _ => filter_optEq_length_le_one customers _ hC _
  have h3 : ∀ (soc : SilverSale × Option SilverOrder × Option SilverCustomer),
      (products.filter (fun p => optEq soc.1.ProductId p.ProductId)).length ≤ 1 :=
    fun soc => filter_optEq_length_le_one products _ hP _
  have h4 : ∀ (socp : SilverSale × Option SilverOrder × Option SilverCustomer × Option SilverProduct),
      (countries.filter
        (fun k => optEq (socp.2.2.1.bind (fun c => c.Country)) k.Country)).length ≤ 1 :=
    fun socp => filter_optEq_length_le_one countries _ hK _
  constructor
  · rw [leftJoin_length_of_le_one _ _ _ _ (fun a _ => h4 a),
        leftJoin_length_of_le_one _ _ _ _ (fun a _ => h3 a),
        leftJoin_length_of_le_one _ _ _ _ (fun a ha => h2 a _ ha),
        leftJoin_length_of_le_one _ _ _ _ h1]
  · rw [leftJoin_map_proj _ _ _ _ (fun f : FactRow => f.SaleId)
          (fun socp : SilverSale × Option SilverOrder × Option SilverCustomer × Option SilverProduct =>
            socp.1.SaleId)
          (fun a ob => rfl) (fun a _ => h4 a),
        leftJoin_map_proj _ _ _ _
          (fun socp : SilverSale × Option SilverOrder × Option SilverCustomer × Option SilverProduct =>
            socp.1.SaleId)
          (fun soc : SilverSale × Option SilverOrder × Option SilverCustomer => soc.1.SaleId)
          (fun a ob => rfl) (fun a _ => h3 a),
        leftJoin_map_proj _ _ _ _
          (fun soc : SilverSale × Option SilverOrder × Option SilverCustomer => soc.1.SaleId)
          (fun so : SilverSale × Option SilverOrder => so.1.SaleId)
          (fun a ob => rfl) (fun a ha => h2 a _ ha),
        leftJoin_map_proj _ _ _ _
          (fun so : SilverSale × Option SilverOrder => so.1.SaleId)
          (fun s : SilverSale => s.SaleId)
          (fun a ob => rfl) h1]

theorem fact_view_row_count_preserved_witness :
    uniqueOn ([⟨some 10, some 5, some 0⟩] : List SilverOrder) (fun o => o.OrderId) ∧
    ((create_silver_fact_sales [⟨some 1, some 10, some 20, some 2⟩]
        [⟨some 10, some 5, some 0⟩] [] [] []).length
      = ([⟨some 1, some 10, some 20, some 2⟩] : List SilverSale).length ∧
     (create_silver_fact_sales [⟨some 1, some 10, some 20, some 2⟩]
        [⟨some 10, some 5, some 0⟩] [] [] []).map (fun f => f.SaleId)
      = ([⟨some 1, some 10, some 20, some 2⟩] : List SilverSale).map
          (fun s => s.SaleId)) :=
  ⟨by decide,
   fact_view_row_count_preserved [⟨some 1, some 10, some 20, some 2⟩]
     [⟨some 10, some 5, some 0⟩] [] [] []
     (by decide) (by decide) (by decide) (by decide)⟩

theorem exceptMapM_ok_length {α β : Type} (f : α → Except String β)
    (l : List α) (out : List β) (h : exceptMapM f l = .ok out) :
    out.length = l.length := by
  induction l generalizing out with
  | nil =>
    rw [exceptMapM] at h
    cases h
    rfl
  | cons a as ih =>
    rw [exceptMapM] at h
    cases hfa : f a with
    | error e => rw [hfa] at h; exact absurd h (by simp)
    | ok b =>
      rw [hfa] at h
      cases hrest : exceptMapM f as with
      | error e => rw [hrest] at h; exact absurd h (by simp)
      | ok bs =>
        rw [hrest] at h
        have : out = b :: bs := by
          have := h
          simp at this
          exact this.symm
        subst this
        simp [ih bs hrest]

/-- Counts shared by all five conformance builders: build = cast over the
identifier-filtered rows. -/
theorem conformed_counts {α β : Type} (f : α → Except String β) (isN : α → Bool)
    (l : List α) (out : List β)
    (h : exceptMapM f (l.filter (fun r => !isN r)) = .ok out) :
    out.length = (l.filter (fun r => !isN r)).length ∧
    out.length ≤ l.length ∧
    ((∀ r ∈ l, isN r = false) → out.length = l.length) := by
  have hlen := exceptMapM_ok_length f _ out h
  refine ⟨hlen, le_trans (le_of_eq hlen) (List.length_filter_le _ _), ?_⟩
  intro hnone
  rw [hlen]
  have : l.filter (fun r => !isN r) = l := by
    apply List.filter_eq_self.mpr
    intro r hr
    simp [hnone r hr]
  rw [this]

/-- Claim C3: for each of the five entities, the conformed table (when the
stage's casts succeed) has at most the tier-1 row count; the rows kept are
exactly those whose primary identifier is non-NULL (the counts agree with
the filtered count); and the counts are equal whenever the tier-1 table has
no NULL primary identifier. -/
theorem conformed_row_count_bounds
    (bc : List BronzeCustomer) (bp : List BronzeProduct) (bo : List BronzeOrder)
    (bs : List BronzeSale) (bk : List BronzeCountry) :
    (∀ out, create_silver_customers bc = .ok out →
      out.length = (bc.filter (fun r => !r.CustomerId.isNull)).length ∧
      out.length ≤ bc.length ∧
      ((∀ r ∈ bc, r.CustomerId.isNull = false) → out.length = bc.length)) ∧
    (∀ out, create_silver_products bp = .ok out →
      out.length = (bp.filter (fun r => !r.ProductId.isNull)).length ∧
      out.length ≤ bp.length ∧
      ((∀ r ∈ bp, r.ProductId.isNull = false) → out.length = bp.length)) ∧
    (∀ out, create_silver_orders bo = .ok out →
      out.length = (bo.filter (fun r => !r.OrderId.isNull)).length ∧
      out.length ≤ bo.length ∧
      ((∀ r ∈ bo, r.OrderId.isNull = false) → out.length = bo.length)) ∧
    (∀ out, create_silver_sales bs = .ok out →
      out.length = (bs.filter (fun r => !r.SaleId.isNull)).length ∧
      out.length ≤ bs.length ∧
      ((∀ r ∈ bs, r.SaleId.isNull = false) → out.length = bs.length)) ∧
    (∀ out, create_silver_countries bk = .ok out →
      out.length = (bk.filter (fun r => !r.Country.isNull)).length ∧
      out.length ≤ bk.length ∧
      ((∀ r ∈ bk, r.Country.isNull = false) → out.length = bk.length)) :=
  ⟨fun out h => conformed_counts _ _ _ _ h,
   fun out h => conformed_counts _ _ _ _ h,
   fun out h => conformed_counts _ _ _ _ h,
   fun out h => conformed_counts _ _ _ _ h,
   fun out h => conformed_counts _ _ _ _ h⟩

theorem conformed_row_count_bounds_witness :
    create_silver_customers
      [⟨.int 1, .boolean true, .str "A", .null, .null, .null, .null⟩,
       ⟨.null, .null, .str "Bad", .null, .null, .null, .null⟩]
      = .ok [⟨some 1, some true, some "A", none, none, none, none⟩] ∧
    (([⟨some 1, some true, some "A", none, none, none, none⟩] : List SilverCustomer).length
        = (([⟨.int 1, .boolean true, .str "A", .null, .null, .null, .null⟩,
             ⟨.null, .null, .str "Bad", .null, .null, .null, .null⟩] :
            List BronzeCustomer).filter (fun r => !r.CustomerId.isNull)).length ∧
     ([⟨some 1, some true, some "A", none, none, none, none⟩] : List SilverCustomer).length
        ≤ ([⟨.int 1, .boolean true, .str "A", .null, .null, .null, .null⟩,
            ⟨.null, .null, .str "Bad", .null, .null, .null, .null⟩] :
           List BronzeCustomer).length ∧
     ((∀ r ∈ ([⟨.int 1, .boolean true, .str "A", .null, .null, .null, .null⟩,
               ⟨.null, .null, .str "Bad", .null, .null, .null, .null⟩] :
              List BronzeCustomer), r.CustomerId.isNull = false) →
       ([⟨some 1, some true, some "A", none, none, none, none⟩] : List SilverCustomer).length
        = ([⟨.int 1, .boolean true, .str "A", .null, .null, .null, .null⟩,
            ⟨.null, .null, .str "Bad", .null, .null, .null, .null⟩] :
           List BronzeCustomer).length)) :=
  ⟨rfl,
   (conformed_row_count_bounds
      [⟨.int 1, .boolean true, .str "A", .null, .null, .null, .null⟩,
       ⟨.null, .null, .str "Bad", .null, .null, .null, .null⟩]
      [] [] [] []).1
     [⟨some 1, some true, some "A", none, none, none, none⟩] rfl⟩

/-- Claim C6: in every row of the dimensional fact table, the derived
total-weight measure equals quantity times unit weight when both are
non-NULL, and is NULL whenever either operand is NULL. -/
theorem gold_total_weight_null_propagation
    (fv : List FactRow) (dimDate : List DimDateRow) (products : List SilverProduct) :
    ∀ row ∈ create_gold_fact_sales fv dimDate products,
      (∀ q w, row.Quantity = some q → row.WeightGrams = some w →
        row.TotalWeightGrams = some (q * w)) ∧
      ((row.Quantity = none ∨ row.WeightGrams = none) →
        row.TotalWeightGrams = none) := by
  intro row hrow
  unfold create_gold_fact_sales at hrow
  obtain ⟨fd, _, hcase⟩ := mem_leftJoin hrow
  have hshape : ∃ p : Option SilverProduct,
      row.Quantity = fd.1.Quantity ∧
      row.WeightGrams = p.bind (fun r => r.WeightGrams) ∧
      row.TotalWeightGrams = mulOpt fd.1.Quantity (p.bind (fun r => r.WeightGrams)) := by
    rcases hcase with ⟨_, hrow_eq⟩ | ⟨p, _, _, hrow_eq⟩
    · exact ⟨none, by rw [hrow_eq], by rw [hrow_eq], by rw [hrow_eq]⟩
    · exact ⟨some p, by rw [hrow_eq], by rw [hrow_eq], by rw [hrow_eq]⟩
  obtain ⟨p, hq, hw, ht⟩ := hshape
  constructor
  · intro q w hq2 hw2
    rw [ht, ← hq, ← hw, hq2, hw2]
    rfl
  · intro hnull
    rw [ht, ← hq, ← hw]
    rcases hnull with h | h
    · rw [h]; rfl
    · rw [h]
      cases row.Quantity <;> rfl

theorem gold_total_weight_null_propagation_witness :
    (⟨none, none, none, none, some 1, none, some 2, some 5, some 10⟩ : GoldFactRow)
      ∈ create_gold_fact_sales
        [⟨none, some 2, none, none, none, none, none, none, some 1, none, none, none, none⟩]
        [] [⟨some 1, none, none, some 5⟩] ∧
    ((∀ q w,
        (⟨none, none, none, none, some 1, none, some 2, some 5, some 10⟩ : GoldFactRow).Quantity = some q →
        (⟨none, none, none, none, some 1, none, some 2, some 5, some 10⟩ : GoldFactRow).WeightGrams = some w →
        (⟨none, none, none, none, some 1, none, some 2, some 5, some 10⟩ : GoldFactRow).TotalWeightGrams = some (q * w)) ∧
     (((⟨none, none, none, none, some 1, none, some 2, some 5, some 10⟩ : GoldFactRow).Quantity = none ∨
       (⟨none, none, none, none, some 1, none, some 2, some 5, some 10⟩ : GoldFactRow).WeightGrams = none) →
      (⟨none, none, none, none, some 1, none, some 2, some 5, some 10⟩ : GoldFactRow).TotalWeightGrams = none)) :=
  ⟨by norm_num [create_gold_fact_sales, leftJoin, optEq, mulOpt],
   gold_total_weight_null_propagation
     [⟨none, some 2, none, none, none, none, none, none, some 1, none, none, none, none⟩]
     [] [⟨some 1, none, none, some 5⟩]
     ⟨none, none, none, none, some 1, none, some 2, some 5, some 10⟩
     (by norm_num [create_gold_fact_sales, leftJoin, optEq, mulOpt])⟩

theorem exists_mem_leftJoin {α β γ : Type} {ls : List α} {rs : List β}
    {p : α → β → Bool} {mk : α → Option β → γ} {a : α} (ha : a ∈ ls) :
    ∃ ob, mk a ob ∈ leftJoin ls rs p mk := by
  cases hm : rs.filter (fun b => p a b) with
  | nil => exact ⟨none, mk_none_mem_leftJoin ha hm⟩
  | cons b ms =>
    refine ⟨some b, ?_⟩
    simp only [leftJoin, List.mem_flatMap]
    refine ⟨a, ha, ?_⟩
    rw [hm]
    exact List.mem_map_of_mem _ (List.mem_cons_self b ms)

/-- Lineage of the conformed fact view: a non-NULL `OrderDate` always comes
from the `Date` of some conformed order row. -/
theorem fact_orderdate_mem_orderDates
    (sales : List SilverSale) (orders : List SilverOrder)
    (customers : List SilverCustomer) (products : List SilverProduct)
    (countries : List SilverCountry) :
    ∀ f ∈ create_silver_fact_sales sales orders customers products countries,
      ∀ v, f.OrderDate = some v → v ∈ orderDates orders := by
  intro f hf v hv
  unfold create_silver_fact_sales at hf
  obtain ⟨socp, hsocp, hcase⟩ := mem_leftJoin hf
  have hOD : f.OrderDate = socp.2.1.bind (fun r => r.Date) := by
    rcases hcase with ⟨_, heq⟩ | ⟨k, _, _, heq⟩ <;> rw [heq]
  rw [hOD] at hv
  obtain ⟨ord, hordeq, horddate⟩ := Option.bind_eq_some.mp hv
  obtain ⟨soc, hsoc, hcase3⟩ := mem_leftJoin hsocp
  have h3 : socp.2.1 = soc.2.1 := by
    rcases hcase3 with ⟨_, heq⟩ | ⟨q, _, _, heq⟩ <;> rw [heq]
  obtain ⟨so, hso, hcase2⟩ := mem_leftJoin hsoc
  have h2 : soc.2.1 = so.2 := by
    rcases hcase2 with ⟨_, heq⟩ | ⟨c, _, _, heq⟩ <;> rw [heq]
  obtain ⟨sal, hsal, hcase1⟩ := mem_leftJoin hso
  rcases hcase1 with ⟨_, heq⟩ | ⟨b, hb, _, heq⟩
  · rw [heq] at h2
    rw [h3, h2] at hordeq
    exact absurd hordeq (by simp)
  · rw [heq] at h2
    rw [h3, h2] at hordeq
    have hbord : ord = b := by simpa using hordeq.symm
    subst hbord
    exact List.mem_filterMap.mpr ⟨ord, hb, horddate⟩

/-- Every observed (non-NULL) order date has a calendar row. -/
theorem calendar_covers_order_dates (orders : List SilverOrder) (v : Nat)
    (hv : v ∈ orderDates orders) :
    ∃ d ∈ create_gold_dim_date orders, d.Date = v := by
  cases hmn : aggMin (orderDates orders) with
  | none =>
    exfalso
    cases hod : orderDates orders with
    | nil => rw [hod] at hv; simp at hv
    | cons x xs => rw [hod] at hmn; exact aggMin_ne_none x xs hmn
  | some mn =>
    cases hmx : aggMax (orderDates orders) with
    | none =>
      exfalso
      cases hod : orderDates orders with
      | nil => rw [hod] at hv; simp at hv
      | cons x xs => rw [hod] at hmx; exact aggMax_ne_none x xs hmx
    | some mx =>
      obtain ⟨_, hlb⟩ := aggMin_spec _ _ hmn
      obtain ⟨_, hub⟩ := aggMax_spec _ _ hmx
      refine ⟨mkDateRow v, ?_, rfl⟩
      unfold create_gold_dim_date
      rw [hmn, hmx]
      exact List.mem_map_of_mem _ ((mem_genSeries mn mx v).mpr ⟨hlb v hv, hub v hv⟩)

/-- Claim C7: in the dimensional fact table built from the same conformed
order set that bounds the calendar, the date key is NULL exactly for sale
lines whose order is missing (NULL `OrderDate` in the fact view). An
out-of-range NULL is impossible by construction: (1) the calendar join for
a fact-view row finds no match precisely when its `OrderDate` is NULL;
(2) every gold row with a NULL `DateKey` stems from a fact-view row with a
NULL `OrderDate`; and (3) every fact-view row with a NULL `OrderDate`
yields a gold row with a NULL `DateKey`. -/
theorem gold_datekey_null_iff_order_missing
    (sales : List SilverSale) (orders : List SilverOrder)
    (customers : List SilverCustomer) (products : List SilverProduct)
    (countries : List SilverCountry) :
    (∀ f ∈ create_silver_fact_sales sales orders customers products countries,
       ((create_gold_dim_date orders).filter
          (fun d => optEq f.OrderDate (some d.Date)) = [] ↔ f.OrderDate = none)) ∧
    (∀ row ∈ create_gold_fact_sales
        (create_silver_fact_sales sales orders customers products countries)
        (create_gold_dim_date orders) products,
       row.DateKey = none →
         ∃ f ∈ create_silver_fact_sales sales orders customers products countries,
           f.OrderDate = none ∧ row.SaleId = f.SaleId) ∧
    (∀ f ∈ create_silver_fact_sales sales orders customers products countries,
       f.OrderDate = none →
         ∃ row ∈ create_gold_fact_sales
             (create_silver_fact_sales sales orders customers products countries)
             (create_gold_dim_date orders) products,
           row.DateKey = none ∧ row.SaleId = f.SaleId) := by
  have part1 : ∀ f ∈ create_silver_fact_sales sales orders customers products countries,
      ((create_gold_dim_date orders).filter
        (fun d => optEq f.OrderDate (some d.Date)) = [] ↔ f.OrderDate = none) := by
    intro f hf
    constructor
    · intro hempty
      by_contra hOD
      obtain ⟨v, hv⟩ := Option.ne_none_iff_exists'.mp hOD
      obtain ⟨d, hd, hdate⟩ := calendar_covers_order_dates orders v
        (fact_orderdate_mem_orderDates sales orders customers products countries f hf v hv)
      have hnot := List.filter_eq_nil_iff.mp hempty d hd
      rw [hv, hdate] at hnot
      simp [optEq] at hnot
    · intro h
      apply List.filter_eq_nil_iff.mpr
      intro d _
      rw [h, optEq_none_left]
      simp
  refine ⟨part1, ?_, ?_⟩
  · intro row hrow hDK
    unfold create_gold_fact_sales at hrow
    obtain ⟨fd, hfd, hcase⟩ := mem_leftJoin hrow
    have hDKeq : row.DateKey = fd.2.map (fun d => d.DateKey) := by
      rcases hcase with ⟨_, heq⟩ | ⟨q, _, _, heq⟩ <;> rw [heq]
    have hSid : row.SaleId = fd.1.SaleId := by
      rcases hcase with ⟨_, heq⟩ | ⟨q, _, _, heq⟩ <;> rw [heq]
    rw [hDKeq] at hDK
    have hfd2 : fd.2 = none := Option.map_eq_none.mp hDK
    obtain ⟨f, hf, hcase2⟩ := mem_leftJoin hfd
    rcases hcase2 with ⟨hfilter, heq⟩ | ⟨d, _, _, heq⟩
    · refine ⟨f, hf, (part1 f hf).mp hfilter, ?_⟩
      rw [hSid, heq]
    · rw [heq] at hfd2
      exact absurd hfd2 (by simp)
  · intro f hf hOD
    have hfilter : (create_gold_dim_date orders).filter
        (fun d => optEq f.OrderDate (some d.Date)) = [] := (part1 f hf).mpr hOD
    have hpair : ((f, none) : FactRow × Option DimDateRow) ∈
        leftJoin (create_silver_fact_sales sales orders customers products countries)
          (create_gold_dim_date orders)
          (fun f d => optEq f.OrderDate (some d.Date)) (fun f d => (f, d)) :=
      mk_none_mem_leftJoin hf hfilter
    obtain ⟨ob, hob⟩ := @exists_mem_leftJoin (FactRow × Option DimDateRow)
      SilverProduct GoldFactRow _ products
      (fun fd p => optEq fd.1.ProductId p.ProductId)
      (fun fd p =>
        ({ SaleId := fd.1.SaleId
           OrderId := fd.1.OrderId
           DateKey := fd.2.map (fun d => d.DateKey)
           CustomerId := fd.1.CustomerId
           ProductId := fd.1.ProductId
           Country := fd.1.CustomerCountry
           Quantity := fd.1.Quantity
           WeightGrams := p.bind (fun r => r.WeightGrams)
           TotalWeightGrams := mulOpt fd.1.Quantity (p.bind (fun r => r.WeightGrams)) } : GoldFactRow))
      _ hpair
    refine ⟨_, hob, rfl, rfl⟩

theorem gold_datekey_null_iff_order_missing_witness :
    (⟨some 1, none, none, none, none, none, none, none, none, none, none, none, none⟩ : FactRow)
      ∈ create_silver_fact_sales [⟨some 1, some 99, none, none⟩] [] [] [] [] ∧
    (⟨some 1, none, none, none, none, none, none, none, none, none, none, none, none⟩ : FactRow).OrderDate = none ∧
    (∃ row ∈ create_gold_fact_sales
        (create_silver_fact_sales [⟨some 1, some 99, none, none⟩] [] [] [] [])
        (create_gold_dim_date []) [],
      row.DateKey = none ∧
      row.SaleId = (⟨some 1, none, none, none, none, none, none, none, none, none, none, none, none⟩ : FactRow).SaleId) :=
  ⟨by decide, rfl,
   (gold_datekey_null_iff_order_missing [⟨some 1, some 99, none, none⟩] [] [] [] []).2.2
     ⟨some 1, none, none, none, none, none, none, none, none, none, none, none, none⟩
     (by decide) rfl⟩

/-- Claim C4: the bronze loader attempts the strict parse first; on an
invalid-input failure it runs the repair pass exactly once and retries with
the line-delimited loader against the repaired content; a second failure is
raised (no further retry, nothing swallowed); on success of either attempt
the target table holds that attempt's records. -/
theorem load_bronze_retry_exactly_once {ρ : Type}
    (strictParse ndjsonParse : List Char → Except String (List ρ))
    (content : List Char) (db : TableStore ρ) (tableName : String) :
    (∀ recs, strictParse content = .ok recs →
      load_bronze_table strictParse ndjsonParse true content db tableName
        = ([.strictAttempt], .ok (storePut db tableName recs))) ∧
    (∀ e, strictParse content = .error e →
      (∀ recs, ndjsonParse (fix_to_ndjson content) = .ok recs →
        load_bronze_table strictParse ndjsonParse true content db tableName
          = ([.strictAttempt, .repairPass, .retryAttempt],
             .ok (storePut db tableName recs))) ∧
      (∀ e2, ndjsonParse (fix_to_ndjson content) = .error e2 →
        load_bronze_table strictParse ndjsonParse true content db tableName
          = ([.strictAttempt, .repairPass, .retryAttempt],
             .error (.invalidInput e2)))) := by
  constructor
  · intro recs hok
    unfold load_bronze_table
    rw [hok]
    rfl
  · intro e herr
    constructor
    · intro recs hok
      unfold load_bronze_table
      rw [herr, hok]
      rfl
    · intro e2 herr2
      unfold load_bronze_table
      rw [herr, herr2]
      rfl

theorem load_bronze_retry_exactly_once_witness :
    ((fun _ : List Char => (.error "strict" : Except String (List Nat))) [' ']
        = .error "strict") ∧
    ((fun _ : List Char => (.error "ndjson" : Except String (List Nat)))
        (fix_to_ndjson [' ']) = .error "ndjson") ∧
    load_bronze_table (fun _ => .error "strict") (fun _ => .error "ndjson")
        true [' '] ([] : TableStore Nat) "bronze_customers"
      = ([.strictAttempt, .repairPass, .retryAttempt], .error (.invalidInput "ndjson")) :=
  ⟨rfl, rfl,
   ((load_bronze_retry_exactly_once (fun _ => .error "strict")
      (fun _ => .error "ndjson") [' '] [] "bronze_customers").2 "strict" rfl).2
     "ndjson" rfl⟩

/-- Claim C9, counterexample: the ingestion stage main has no
`try/finally`, so when a table load raises, the stage exits with the
connection still open. Concretely, a single failing load leaves the
connection-open flag `true` at stage exit. -/
theorem bronze_main_leaks_connection_on_error :
    bronzeMain [(.error "InvalidInputException" : Except String Unit)]
      = (true, .error "InvalidInputException") := rfl

/-- Claim C9, amended: the conformance and modeling stage mains release the
connection on every execution path (`try/finally`); the ingestion stage
main releases it only on the success path. -/
theorem stage_connection_release
    (steps : List (Except String Unit)) (dbExists : Bool) (e0 : String)
    (loads : List (Except String Unit)) (hok : runSeq loads = .ok ()) :
    (silverMain steps).1 = false ∧
    (goldMain e0 dbExists steps).1 = false ∧
    (bronzeMain loads).1 = false := by
  refine ⟨rfl, ?_, ?_⟩
  · unfold goldMain
    cases dbExists <;> rfl
  · unfold bronzeMain
    rw [hok]

theorem stage_connection_release_witness :
    runSeq [(.ok () : Except String Unit)] = .ok () ∧
    ((silverMain [(.error "boom" : Except String Unit)]).1 = false ∧
     (goldMain "missing" false [(.ok () : Except String Unit)]).1 = false ∧
     (bronzeMain [(.ok () : Except String Unit)]).1 = false) :=
  ⟨rfl, stage_connection_release [(.error "boom" : Except String Unit)] false
    "missing" [(.ok () : Except String Unit)] rfl⟩

/-- Claim C8, counterexample: the repair pass is not byte-identity on every
well-formed line-delimited document — a line carrying one JSON object with
leading whitespace (here the single-line document " {}") satisfies the
claim's condition (one JSON object per line, no blank lines, no trailing
commas) yet `fix_to_ndjson` strips the padding, so the output differs from
the input by more than the trailing newline. -/
theorem fix_to_ndjson_strips_padding_counterexample :
    wellFormedNdjson [' ', '{', '}'] = true ∧
    fix_to_ndjson [' ', '{', '}'] ≠ [' ', '{', '}'] ∧
    fix_to_ndjson [' ', '{', '}'] ≠ [' ', '{', '}'] ++ ['\n'] := by
  refine ⟨rfl, ?_, ?_⟩ <;> decide

/-- Claim C8, amended: on a well-formed line-delimited document whose lines
additionally carry no leading or trailing whitespace (each line is already
stripped, non-blank, and has no trailing comma), the repair pass returns
byte-identical content up to the trailing newline appended after an
unterminated final line, and the repaired document has exactly the lines —
hence the record count — of the original. -/
theorem fix_to_ndjson_identity_on_clean (content : List Char)
    (h : ∀ l ∈ splitLines content,
      pyStrip l = l ∧ l ≠ [] ∧ l.getLast? ≠ some ',') :
    (fix_to_ndjson content = content ∨
     fix_to_ndjson content = content ++ ['\n']) ∧
    splitLines (fix_to_ndjson content) = splitLines content := by
  have hclean : ∀ l ∈ splitLines content, cleanLine l = some l := by
    intro l hl
    obtain ⟨hstrip, hne, hcomma⟩ := h l hl
    unfold cleanLine
    rw [hstrip]
    rw [if_neg (by simpa [List.isEmpty_iff] using hne), if_neg hcomma]
  have hfm : ∀ ls : List (List Char), (∀ l ∈ ls, cleanLine l = some l) →
      ls.filterMap cleanLine = ls := by
    intro ls hc
    induction ls with
    | nil => rfl
    | cons l ls ih =>
      simp only [List.filterMap_cons, hc l (List.mem_cons_self l ls)]
      rw [ih (fun l' hl' => hc l' (List.mem_cons_of_mem l hl'))]
  have hfix : fix_to_ndjson content = joinLines (splitLines content) := by
    unfold fix_to_ndjson
    rw [hfm (splitLines content) hclean]
  constructor
  · rw [hfix]
    exact joinLines_splitLines content
  · rw [hfix, splitLines_joinLines _ (splitLines_no_newline content)]

theorem fix_to_ndjson_identity_on_clean_witness :
    (∀ l ∈ splitLines ['{', '}', '\n', '{', 'a', '}', '\n'],
      pyStrip l = l ∧ l ≠ [] ∧ l.getLast? ≠ some ',') ∧
    ((fix_to_ndjson ['{', '}', '\n', '{', 'a', '}', '\n']
        = ['{', '}', '\n', '{', 'a', '}', '\n'] ∨
      fix_to_ndjson ['{', '}', '\n', '{', 'a', '}', '\n']
        = ['{', '}', '\n', '{', 'a', '}', '\n'] ++ ['\n']) ∧
     splitLines (fix_to_ndjson ['{', '}', '\n', '{', 'a', '}', '\n'])
        = splitLines ['{', '}', '\n', '{', 'a', '}', '\n']) :=
  ⟨by decide,
   fix_to_ndjson_identity_on_clean ['{', '}', '\n', '{', 'a', '}', '\n'] (by decide)⟩

/-- General shape of the three referential-integrity diagnostics: the count
of left rows whose NULL-padded join output survives the `IS NULL` filter
equals the count of left rows whose foreign key is NULL or matches no
right-side key. -/
theorem leftJoin_missing_count {α β κ : Type} [DecidableEq κ]
    (ls : List α) (rs : List β) (lkey : α → Option κ) (rkey : β → Option κ) :
    ((leftJoin ls rs (fun a b => optEq (lkey a) (rkey b)) (fun a b => (a, b))).filter
        (fun ab => (ab.2.bind (fun b => rkey b)).isNone)).length
      = (ls.filter (fun a =>
          (lkey a).isNone || rs.all (fun b => !(optEq (lkey a) (rkey b))))).length := by
  induction ls with
  | nil => rfl
  | cons a as ih =>
    have hsplit :
        leftJoin (a :: as) rs (fun a b => optEq (lkey a) (rkey b)) (fun a b => (a, b))
          = (match rs.filter (fun b => optEq (lkey a) (rkey b)) with
             | [] => [(a, (none : Option β))]
             | ms => ms.map (fun b => (a, some b)))
            ++ leftJoin as rs (fun a b => optEq (lkey a) (rkey b)) (fun a b => (a, b)) := by
      simp [leftJoin]
    rw [hsplit, List.filter_append, List.length_append, ih, List.filter_cons]
    cases hm : rs.filter (fun b => optEq (lkey a) (rkey b)) with
    | nil =>
      have hall : rs.all (fun b => !(optEq (lkey a) (rkey b))) = true := by
        rw [List.all_eq_true]
        intro b hb
        have := List.filter_eq_nil_iff.mp hm b hb
        simpa using this
      rw [hall]
      simp
      omega
    | cons b ms =>
      have hbmem : b ∈ rs.filter (fun b => optEq (lkey a) (rkey b)) := by
        rw [hm]; exact List.mem_cons_self b ms
      have hbpred := List.mem_filter.mp hbmem
      obtain ⟨v, hlv, hrv⟩ := (optEq_eq_true_iff _ _).mp hbpred.2
      have hlnone : (lkey a).isNone = false := by rw [hlv]; rfl
      have hall : rs.all (fun b => !(optEq (lkey a) (rkey b))) = false := by
        rw [List.all_eq_false]
        exact ⟨b, hbpred.1, by simp [hbpred.2]⟩
      have hmapnil :
          ((b :: ms).map (fun b' => (a, some b'))).filter
            (fun ab : α × Option β => (ab.2.bind (fun b => rkey b)).isNone) = [] := by
        apply List.filter_eq_nil_iff.mpr
        intro x hx
        obtain ⟨b', hb', hxeq⟩ := List.mem_map.mp hx
        have hb'mem : b' ∈ rs.filter (fun b => optEq (lkey a) (rkey b)) := by
          rw [hm]; exact hb'
        have hb'pred := List.mem_filter.mp hb'mem
        obtain ⟨w, _, hrw⟩ := (optEq_eq_true_iff _ _).mp hb'pred.2
        subst hxeq
        simp [hrw]
      rw [hmapnil, hlnone, hall]
      simp

/-- Claim C10: each referential-integrity diagnostic counts exactly the
left-side rows whose foreign key is NULL or has no match on the referenced
table — so rows with a NULL `OrderId`, `ProductId`, or `CustomerId` foreign
key are included in the respective missing-orders, missing-products, and
missing-customers counts. -/
theorem quality_checks_cover_null_foreign_keys
    (sales : List SilverSale) (orders : List SilverOrder)
    (customers : List SilverCustomer) (products : List SilverProduct) :
    countMissingCustomers orders customers
      = (orders.filter (fun o =>
          o.CustomerId.isNone ||
          customers.all (fun c => !(optEq o.CustomerId c.CustomerId)))).length ∧
    countMissingOrders sales orders
      = (sales.filter (fun s =>
          s.OrderId.isNone ||
          orders.all (fun o => !(optEq s.OrderId o.OrderId)))).length ∧
    countMissingProducts sales products
      = (sales.filter (fun s =>
          s.ProductId.isNone ||
          products.all (fun p => !(optEq s.ProductId p.ProductId)))).length :=
  ⟨leftJoin_missing_count orders customers
     (fun o => o.CustomerId) (fun c => c.CustomerId),
   leftJoin_missing_count sales orders
     (fun s => s.OrderId) (fun o => o.OrderId),
   leftJoin_missing_count sales products
     (fun s => s.ProductId) (fun p => p.ProductId)⟩

end Sales
